import Mathlib

/-!
# Fluent Forward exporter: `exporter.go`

A shallow embedding of `exporter.go` (record translation, batch assembly, the
send / reconnect / send policy, `start` and `stop`) and the properties of it
that the specification states.

Conventions of the embedding:

* a Go `error` is an `Option Error`, `none` being `nil`;
* the forward-protocol client is an external library; its behaviour is an
  arbitrary function from the calls made so far and the call being made to
  the error that call returns (`Transport`);
* every operation that talks to the client returns, next to its result, the
  list of client calls it made, in order;
* `fproto.EventTimeNow()` reads a clock that is an explicit input: the
  `n`-th reading taken during one push is `clock n`.
-/

namespace fluentforwardexporter

/-! ## Data model -/

/-- A Go `error` value that is not `nil`, identified by its message. -/
abbrev Error := String

/-- The `pcommon.Value` of the collector, as far as the exporter observes it:
the only method the exporter calls on a value is `AsString`. -/
structure Value where
  AsString : String
deriving DecidableEq, Repr

/-- The `pcommon.Map` holding the attributes of a log record: a sequence of
key/value pairs. -/
abbrev AttributeMap := List (String × Value)

/-- The method `Get` of `pcommon.Map`: the value stored under `key` (the first
one in the sequence) and whether there is one. -/
def AttributeMap.Get (m : AttributeMap) (key : String) : Option Value :=
  m.lookup key

/-- One `plog.LogRecord`, with the three accessors the exporter reads. -/
structure LogRecord where
  SeverityText : String
  Body : Value
  Attributes : AttributeMap
deriving DecidableEq, Repr

/-- One `plog.ScopeLogs`: its list of log records. -/
structure ScopeLogs where
  LogRecords : List LogRecord
deriving DecidableEq, Repr

/-- One `plog.ResourceLogs`: its list of scopes. -/
structure ResourceLogs where
  ScopeLogs : List ScopeLogs
deriving DecidableEq, Repr

/-- A batch, `plog.Logs`: its list of resources. -/
structure Logs where
  ResourceLogs : List ResourceLogs
deriving DecidableEq, Repr

/-- A Go `map[string]interface{}` whose values are strings (every value the
exporter stores is the result of `SeverityText()` or `AsString()`): the value
under each key, `none` for a key that is not in the map. -/
abbrev GoMap := String → Option String

/-- The empty map, `make(map[string]interface{})`. -/
def GoMap.make : GoMap := fun _ => none

/-- The assignment `m[key] = val`. -/
def GoMap.set (m : GoMap) (key : String) (val : String) : GoMap :=
  fun k => if k = key then some val else m k

/-- The Go `map[string]bool` of the field `DefaultLabelsEnabled`: its entries
in the order in which `range` visits them, no key twice. -/
structure LabelSelection where
  entries : List (String × Bool)
  nodup : (entries.map Prod.fst).Nodup

/-- The fields of `Config` that `exporter.go` reads (the type is declared in
another file of the package). -/
structure Config where
  Endpoint : String
  ConnectionTimeout : Nat
  RequireAck : Bool
  Tag : String
  CompressGzip : Bool
  DefaultLabelsEnabled : LabelSelection

/-- The argument of `fclient.New` as `start` fills it: `fclient.ConnectionOptions`
with its `fclient.ConnFactory`. -/
structure ConnectionOptions where
  Address : String
  Timeout : Nat
  RequireAck : Bool
deriving DecidableEq, Repr

/-- A forward-protocol client, `*fclient.Client`, as built by `fclient.New`. -/
structure Client where
  options : ConnectionOptions
deriving DecidableEq, Repr

/-- The constructor `fclient.New`. -/
def Client.New (options : ConnectionOptions) : Client := ⟨options⟩

/-- The `component.TelemetrySettings` handed to `newExporter`; the exporter
only logs one line through it. -/
structure TelemetrySettings where
  deriving DecidableEq, Repr

/-- The struct `fluentforwardExporter`. The field `client` is a pointer, `nil`
until `start` has succeeded; `wg` is the counter of the `sync.WaitGroup`. -/
structure fluentforwardExporter where
  config : Config
  settings : TelemetrySettings
  client : Option Client
  wg : Nat

/-- An instant returned by `fproto.EventTimeNow()`. -/
abbrev EventTime := Nat

/-- One wire entry, `fproto.EntryExt`. -/
structure EntryExt where
  Timestamp : EventTime
  Record : GoMap

/-- A call on the forward-protocol client. -/
inductive Call where
  | Connect (client : Client)
  | Reconnect
  | SendForward (tag : String) (entries : List EntryExt)
  | SendCompressed (tag : String) (entries : List EntryExt)

/-- The behaviour of the client library and of the network behind it: the
error returned by a call, given the calls made before it. -/
abbrev Transport := List Call → Call → Option Error

/-- How a method of the exporter ends: it returns an error value (`nil` or
not), or it dereferences the `nil` client pointer and the goroutine panics. -/
inductive Outcome where
  | ret (err : Option Error)
  | nilPanic
deriving DecidableEq, Repr

/-! ## The functions of `exporter.go` -/

/-- The constructor `newExporter`: the two fields it sets, the others at their
zero value. -/
def newExporter (config : Config) (settings : TelemetrySettings) : fluentforwardExporter :=
  { config := config, settings := settings, client := none, wg := 0 }

/-- The body of the loop of `convertLogToMap`, for one entry `key, val` of
the label selection. -/
def projectLabel (lr : LogRecord) (m : GoMap) (kv : String × Bool) : GoMap :=
  if kv.2 then
    match lr.Attributes.Get kv.1 with
    | some attr => m.set kv.1 attr.AsString
    | none => m
  else m

/-- The method `convertLogToMap`. -/
def convertLogToMap (f : fluentforwardExporter) (lr : LogRecord) : GoMap :=
  let m := GoMap.make
  let m := m.set "severity" lr.SeverityText
  let m := m.set "message" lr.Body.AsString
  f.config.DefaultLabelsEnabled.entries.foldl (projectLabel lr) m

/-- The state of the loops of `pushLogData`: the slice `entries` built so far
and the number of clock readings taken so far. -/
structure AssemblyState where
  entries : List EntryExt
  readings : Nat

/-- The body of the innermost loop of `pushLogData`, for one log record. -/
def appendEntry (f : fluentforwardExporter) (clock : Nat → EventTime)
    (s : AssemblyState) (log : LogRecord) : AssemblyState :=
  let entry : EntryExt := { Timestamp := clock s.readings, Record := convertLogToMap f log }
  { entries := s.entries ++ [entry], readings := s.readings + 1 }

/-- The three nested loops of `pushLogData`, started on a given state. -/
def assembleFrom (f : fluentforwardExporter) (clock : Nat → EventTime)
    (s : AssemblyState) (ld : Logs) : AssemblyState :=
  ld.ResourceLogs.foldl
    (fun s rl =>
      rl.ScopeLogs.foldl
        (fun s ills => ills.LogRecords.foldl (appendEntry f clock) s)
        s)
    s

/-- The slice `entries` of `pushLogData` when its loops are over. -/
def assembleEntries (f : fluentforwardExporter) (clock : Nat → EventTime) (ld : Logs) :
    List EntryExt :=
  (assembleFrom f clock { entries := [], readings := 0 } ld).entries

/-- The method `SendCompressed`. `hist` is the list of client calls made
before this one. -/
def SendCompressed (t : Transport) (hist : List Call) (f : fluentforwardExporter)
    (entries : List EntryExt) : Outcome × List Call :=
  match f.client with
  | none => (Outcome.nilPanic, [])
  | some _ =>
    let send := Call.SendCompressed f.config.Tag entries
    match t hist send with
    | some _ =>
      match t (hist ++ [send]) Call.Reconnect with
      | some errr => (Outcome.ret (some errr), [send, Call.Reconnect])
      | none =>
        match t (hist ++ [send, Call.Reconnect]) send with
        | some err => (Outcome.ret (some err), [send, Call.Reconnect, send])
        | none => (Outcome.ret none, [send, Call.Reconnect, send])
    | none => (Outcome.ret none, [send])

/-- The method `SendForward`. `hist` is the list of client calls made before
this one. -/
def SendForward (t : Transport) (hist : List Call) (f : fluentforwardExporter)
    (entries : List EntryExt) : Outcome × List Call :=
  match f.client with
  | none => (Outcome.nilPanic, [])
  | some _ =>
    let send := Call.SendForward f.config.Tag entries
    match t hist send with
    | some _ =>
      match t (hist ++ [send]) Call.Reconnect with
      | some errr => (Outcome.ret (some errr), [send, Call.Reconnect])
      | none =>
        match t (hist ++ [send, Call.Reconnect]) send with
        | some err => (Outcome.ret (some err), [send, Call.Reconnect, send])
        | none => (Outcome.ret none, [send, Call.Reconnect, send])
    | none => (Outcome.ret none, [send])

/-- The method `pushLogData`. -/
def pushLogData (t : Transport) (hist : List Call) (f : fluentforwardExporter)
    (clock : Nat → EventTime) (ld : Logs) : Outcome × List Call :=
  let entries := assembleEntries f clock ld
  if f.config.CompressGzip then
    SendCompressed t hist f entries
  else
    SendForward t hist f entries

/-- The method `start`: its error, the exporter afterwards and the client
calls made. -/
def start (t : Transport) (hist : List Call) (f : fluentforwardExporter) :
    Option Error × fluentforwardExporter × List Call :=
  let client := Client.New
    { Address := f.config.Endpoint
      Timeout := f.config.ConnectionTimeout
      RequireAck := f.config.RequireAck }
  match t hist (Call.Connect client) with
  | some err => (some err, f, [Call.Connect client])
  | none => (none, { f with client := some client }, [Call.Connect client])

/-- The method `stop`: `f.wg.Wait()` returns once the counter of the wait
group is zero, and `stop` then returns `nil`; `none` stands for a call that
stays blocked in `Wait`. -/
def stop (f : fluentforwardExporter) : Option (Option Error) :=
  if f.wg = 0 then some none else none

/-! ## Notions of the specification -/

/-- The leaf log records of a batch in resource-major, scope-next,
record-last order. -/
def leafRecords (ld : Logs) : List LogRecord :=
  (ld.ResourceLogs.map fun rl => (rl.ScopeLogs.map fun sl => sl.LogRecords).flatten).flatten

/-- The number of leaf log records of a batch: the sum, over all resources
and all their scopes, of the record counts. -/
def leafCount (ld : Logs) : Nat :=
  (ld.ResourceLogs.map fun rl => (rl.ScopeLogs.map fun sl => sl.LogRecords.length).sum).sum

/-- The entries that the innermost loop of `pushLogData` appends for a list of
log records when `n` clock readings have been taken before: the `i`-th one is
stamped with reading `n + i`. -/
def stampFrom (f : fluentforwardExporter) (clock : Nat → EventTime) :
    Nat → List LogRecord → List EntryExt
  | _, [] => []
  | n, lr :: rest =>
    { Timestamp := clock n, Record := convertLogToMap f lr } :: stampFrom f clock (n + 1) rest

/-- The two send operations of the exporter. -/
inductive SendKind where
  | forward
  | compressed
deriving DecidableEq, Repr

/-- The client call that a send operation of the given kind makes. -/
def SendKind.call (k : SendKind) (tag : String) (entries : List EntryExt) : Call :=
  match k with
  | SendKind.forward => Call.SendForward tag entries
  | SendKind.compressed => Call.SendCompressed tag entries

/-- The method of the exporter for a kind of send: `SendForward` or
`SendCompressed`. -/
def SendKind.run (k : SendKind) (t : Transport) (hist : List Call)
    (f : fluentforwardExporter) (entries : List EntryExt) : Outcome × List Call :=
  match k with
  | SendKind.forward => SendForward t hist f entries
  | SendKind.compressed => SendCompressed t hist f entries

/-- Whether a client call is a send, compressed or not. -/
def Call.isSend : Call → Bool
  | Call.SendForward _ _ => true
  | Call.SendCompressed _ _ => true
  | _ => false

/-- Whether a client call is an uncompressed send. -/
def Call.isSendForward : Call → Bool
  | Call.SendForward _ _ => true
  | _ => false

/-- Whether a client call is a compressed send. -/
def Call.isSendCompressed : Call → Bool
  | Call.SendCompressed _ _ => true
  | _ => false

/-- Whether a client call is a reconnect. -/
def Call.isReconnect : Call → Bool
  | Call.Reconnect => true
  | _ => false

/-- Whether a client call is a connect. -/
def Call.isConnect : Call → Bool
  | Call.Connect _ => true
  | _ => false

/-- The client built from the endpoint, the connection timeout and the
acknowledgement flag of a configuration. -/
def clientOf (config : Config) : Client :=
  Client.New
    { Address := config.Endpoint
      Timeout := config.ConnectionTimeout
      RequireAck := config.RequireAck }

/-- The attribute that the label selection projects under key `k`: the
attribute of that name on the record, when the selection enables `k`. -/
def enabledAttribute (f : fluentforwardExporter) (lr : LogRecord) (k : String) :
    Option Value :=
  if (k, true) ∈ f.config.DefaultLabelsEnabled.entries then lr.Attributes.Get k else none

/-! ## Concrete inputs -/

/-- The label selection of the test configuration. -/
def testLabels : LabelSelection :=
  ⟨[("timestamp", true), ("level", true), ("message", true)], by decide⟩

/-- The configuration of `TestLoadConfigNewExporter`. -/
def testConfig : Config :=
  { Endpoint := "localhost:24224"
    ConnectionTimeout := 30000000000
    RequireAck := false
    Tag := "tag"
    CompressGzip := false
    DefaultLabelsEnabled := testLabels }

/-- The same configuration with gzip compression switched on. -/
def gzipConfig : Config := { testConfig with CompressGzip := true }

/-- An exporter on the test configuration whose `start` has succeeded. -/
def runningExporter : fluentforwardExporter :=
  { newExporter testConfig {} with client := some (clientOf testConfig) }

/-- An exporter on the gzip configuration whose `start` has succeeded. -/
def runningGzipExporter : fluentforwardExporter :=
  { newExporter gzipConfig {} with client := some (clientOf gzipConfig) }

/-- A log record with a `level` attribute and nothing else. -/
def plainRecord : LogRecord :=
  { SeverityText := "INFO", Body := ⟨"hello"⟩, Attributes := [("level", ⟨"info"⟩)] }

/-- A log record that carries an attribute named `message`. -/
def shadowingRecord : LogRecord :=
  { SeverityText := "INFO", Body := ⟨"hello"⟩, Attributes := [("message", ⟨"other"⟩)] }

/-- A batch of two resources with three leaf records in all. -/
def sampleBatch : Logs :=
  ⟨[⟨[⟨[plainRecord, shadowingRecord]⟩]⟩, ⟨[⟨[]⟩, ⟨[plainRecord]⟩]⟩]⟩

/-- A record without attributes. -/
def bareRecord : LogRecord :=
  { SeverityText := "", Body := ⟨""⟩, Attributes := [] }

/-- A label selection that lists `severity` with its flag off and `message`
and `host` with their flags on. -/
def overlappingLabels : LabelSelection :=
  ⟨[("severity", false), ("message", true), ("host", true)], by decide⟩

/-- An exporter on the test configuration with the overlapping labels. -/
def overlappingExporter : fluentforwardExporter :=
  newExporter { testConfig with DefaultLabelsEnabled := overlappingLabels } {}

/-- A transport on which every call succeeds. -/
def healthyTransport : Transport := fun _ _ => none

/-- A transport on which the first call fails and every later call succeeds. -/
def flakyTransport : Transport := fun hist _ =>
  match hist with
  | [] => some "broken pipe"
  | _ => none

/-- A transport on which every send fails and every reconnect succeeds. -/
def deafTransport : Transport := fun hist c =>
  match c with
  | Call.Reconnect => none
  | Call.Connect _ => none
  | _ => if hist.length = 0 then some "broken pipe" else some "connection reset"

/-- A transport on which every call fails: sends with `broken pipe`, the
others with `connection refused`. -/
def deadTransport : Transport := fun _ c =>
  match c with
  | Call.SendForward _ _ => some "broken pipe"
  | Call.SendCompressed _ _ => some "broken pipe"
  | _ => some "connection refused"

/-- A client call with a compressed send replaced by the uncompressed send of
the same tag and entries. -/
def Call.uncompress : Call → Call
  | Call.SendCompressed tag entries => Call.SendForward tag entries
  | c => c

/-- The assignments that the label selection contributes for a record, in the
order of the selection: one pair of key and string rendering for each label
whose flag is true and whose attribute is present on the record. -/
def labelAssignments (f : fluentforwardExporter) (lr : LogRecord) : List (String × String) :=
  f.config.DefaultLabelsEnabled.entries.filterMap fun kv =>
    if kv.2 then (lr.Attributes.Get kv.1).map fun a => (kv.1, a.AsString) else none

/-- The map described for the record translator: `severity` set to the
severity text, `message` set to the body text, then every label assignment
applied. -/
def translatedMap (f : fluentforwardExporter) (lr : LogRecord) : GoMap :=
  (labelAssignments f lr).foldl (fun m p => m.set p.1 p.2)
    ((GoMap.make.set "severity" lr.SeverityText).set "message" lr.Body.AsString)

/-- An exporter together with the number of goroutines that have entered
`pushLogData` on it and not yet returned. -/
structure Instance where
  exporter : fluentforwardExporter
  inFlight : Nat

/-- A goroutine enters `pushLogData`. The method has no statement on `f.wg`
at its beginning, so the exporter is as it was. -/
def Instance.enterPush (i : Instance) : Instance :=
  { exporter := i.exporter, inFlight := i.inFlight + 1 }

/-- A goroutine returns from `pushLogData`. The method has no statement on
`f.wg` at its end either, so the exporter is as it was. -/
def Instance.leavePush (i : Instance) : Instance :=
  { exporter := i.exporter, inFlight := i.inFlight - 1 }

/-- The instance that a successful `start` on the test configuration leaves,
with no push in flight. -/
def startedInstance : Instance :=
  { exporter := (start healthyTransport [] (newExporter testConfig {})).2.1, inFlight := 0 }

/-- A batch of one resource and three scopes whose three leaf records differ
from those of `sampleBatch`. -/
def otherBatch : Logs :=
  ⟨[⟨[⟨[bareRecord]⟩, ⟨[shadowingRecord]⟩, ⟨[bareRecord]⟩]⟩]⟩

/-- A batch with two resources and one scope, and no log record. -/
def hollowBatch : Logs :=
  ⟨[⟨[]⟩, ⟨[⟨[]⟩]⟩]⟩

/-! ## Batch assembly -/

theorem stampFrom_append (f : fluentforwardExporter) (clock : Nat → EventTime)
    (xs ys : List LogRecord) (n : Nat) :
    stampFrom f clock n (xs ++ ys)
      = stampFrom f clock n xs ++ stampFrom f clock (n + xs.length) ys := by
  induction xs generalizing n with
  | nil => simp [stampFrom]
  | cons x xs ih =>
    have h : n + 1 + xs.length = n + (xs.length + 1) := by omega
    rw [List.cons_append, stampFrom, stampFrom, ih, h, List.length_cons, List.cons_append]

theorem stampFrom_length (f : fluentforwardExporter) (clock : Nat → EventTime)
    (xs : List LogRecord) (n : Nat) : (stampFrom f clock n xs).length = xs.length := by
  induction xs generalizing n with
  | nil => rfl
  | cons x xs ih => simp [stampFrom, ih]

theorem stampFrom_record (f : fluentforwardExporter) (clock : Nat → EventTime)
    (xs : List LogRecord) (n : Nat) :
    (stampFrom f clock n xs).map EntryExt.Record = xs.map (convertLogToMap f) := by
  induction xs generalizing n with
  | nil => rfl
  | cons x xs ih => simp [stampFrom, ih]

/-- The innermost loop: it appends one stamped entry per record, in order. -/
theorem foldl_appendEntry (f : fluentforwardExporter) (clock : Nat → EventTime)
    (logs : List LogRecord) (s : AssemblyState) :
    logs.foldl (appendEntry f clock) s
      = { entries := s.entries ++ stampFrom f clock s.readings logs
          readings := s.readings + logs.length } := by
  induction logs generalizing s with
  | nil => simp [stampFrom]
  | cons lr rest ih =>
    simp only [List.foldl_cons, ih, appendEntry, stampFrom, List.append_assoc,
      List.singleton_append, List.length_cons]
    have h : s.readings + 1 + rest.length = s.readings + (rest.length + 1) := by omega
    rw [h]

/-- The middle loop: the records of the scopes, scope after scope. -/
theorem foldl_scopes (f : fluentforwardExporter) (clock : Nat → EventTime)
    (ills : List ScopeLogs) (s : AssemblyState) :
    ills.foldl (fun s sl => sl.LogRecords.foldl (appendEntry f clock) s) s
      = { entries := s.entries
            ++ stampFrom f clock s.readings (ills.map fun sl => sl.LogRecords).flatten
          readings := s.readings + (ills.map fun sl => sl.LogRecords).flatten.length } := by
  induction ills generalizing s with
  | nil => simp [stampFrom]
  | cons sl rest ih =>
    rw [List.foldl_cons, foldl_appendEntry, ih]
    simp only [List.map_cons, List.flatten_cons, stampFrom_append, List.append_assoc,
      List.length_append, Nat.add_assoc]

/-- The three loops of `pushLogData`: the leaf records of the batch, stamped
in order. -/
theorem assembleFrom_eq (f : fluentforwardExporter) (clock : Nat → EventTime)
    (ld : Logs) (s : AssemblyState) :
    assembleFrom f clock s ld
      = { entries := s.entries ++ stampFrom f clock s.readings (leafRecords ld)
          readings := s.readings + (leafRecords ld).length } := by
  obtain ⟨rls⟩ := ld
  unfold assembleFrom leafRecords
  simp only
  induction rls generalizing s with
  | nil => simp [stampFrom]
  | cons rl rest ih =>
    rw [List.foldl_cons, foldl_scopes, ih]
    simp only [List.map_cons, List.flatten_cons, stampFrom_append, List.append_assoc,
      List.length_append, Nat.add_assoc]

theorem assembleEntries_eq (f : fluentforwardExporter) (clock : Nat → EventTime) (ld : Logs) :
    assembleEntries f clock ld = stampFrom f clock 0 (leafRecords ld) := by
  simp [assembleEntries, assembleFrom_eq]

theorem leafRecords_length (ld : Logs) : (leafRecords ld).length = leafCount ld := by
  obtain ⟨rls⟩ := ld
  unfold leafRecords leafCount
  simp only
  induction rls with
  | nil => rfl
  | cons rl rest ih =>
    simp only [List.map_cons, List.flatten_cons, List.length_append, List.sum_cons, ih]
    congr 1
    induction rl.ScopeLogs with
    | nil => rfl
    | cons sl more ih2 =>
      simp only [List.map_cons, List.flatten_cons, List.length_append, List.sum_cons, ih2]

/-- C1. The entry sequence that `pushLogData` hands to `SendCompressed` or
`SendForward` is `assembleEntries`; it has as many entries as the batch has
leaf log records, and the records of its entries are, in order, the
`convertLogToMap` of the leaf records taken resource by resource, scope by
scope, record by record: nothing is dropped, duplicated or reordered. -/
theorem pushLogData_entries_follow_leaves (t : Transport) (hist : List Call)
    (f : fluentforwardExporter) (clock : Nat → EventTime) (ld : Logs) :
    pushLogData t hist f clock ld
        = (if f.config.CompressGzip then SendCompressed t hist f (assembleEntries f clock ld)
           else SendForward t hist f (assembleEntries f clock ld))
      ∧ (assembleEntries f clock ld).length = leafCount ld
      ∧ (assembleEntries f clock ld).map EntryExt.Record
          = (leafRecords ld).map (convertLogToMap f)
      ∧ ∀ (i : Nat) (h : i < (leafRecords ld).length),
          ((assembleEntries f clock ld)[i]?).map EntryExt.Record
            = some (convertLogToMap f ((leafRecords ld).get ⟨i, h⟩)) := by
  have hmap := stampFrom_record f clock (leafRecords ld) 0
  rw [← assembleEntries_eq] at hmap
  refine ⟨rfl, ?_, hmap, ?_⟩
  · rw [assembleEntries_eq, stampFrom_length, leafRecords_length]
  · intro i h
    rw [← List.getElem?_map, hmap, List.getElem?_map]
    simp [List.getElem?_eq_getElem h]

/-! ## Record translation -/

/-- One step of the loop of `convertLogToMap` seen from one key. -/
theorem projectLabel_apply (lr : LogRecord) (m : GoMap) (key : String) (val : Bool)
    (k : String) :
    projectLabel lr m (key, val) k
      = if val = true ∧ k = key then
          (match lr.Attributes.Get k with
           | some a => some a.AsString
           | none => m k)
        else m k := by
  unfold projectLabel
  cases val with
  | false => simp
  | true =>
    by_cases hk : k = key
    · subst hk
      cases hget : lr.Attributes.Get k <;> simp [GoMap.set]
    · cases hget : lr.Attributes.Get key <;> simp [GoMap.set, hk]

/-- The loop of `convertLogToMap` seen from one key: the key takes the
rendering of its attribute when the selection enables it and the record has
the attribute, and keeps its value otherwise. -/
theorem foldl_projectLabel (lr : LogRecord) (entries : List (String × Bool)) (m : GoMap)
    (k : String) :
    entries.foldl (projectLabel lr) m k
      = match (if (k, true) ∈ entries then lr.Attributes.Get k else none) with
        | some a => some a.AsString
        | none => m k := by
  induction entries generalizing m with
  | nil => simp
  | cons kv rest ih =>
    obtain ⟨key, val⟩ := kv
    rw [List.foldl_cons, ih, projectLabel_apply]
    by_cases hk : k = key
    · subst hk
      by_cases hrest : (k, true) ∈ rest <;> cases val <;>
        cases hget : lr.Attributes.Get k <;> simp [hrest, hget]
    · by_cases hrest : (k, true) ∈ rest <;> cases val <;>
        cases hget : lr.Attributes.Get k <;> simp [hrest, hk, hget]

/-- The map of `convertLogToMap` seen from one key. -/
theorem convertLogToMap_apply (f : fluentforwardExporter) (lr : LogRecord) (k : String) :
    convertLogToMap f lr k
      = match enabledAttribute f lr k with
        | some a => some a.AsString
        | none =>
          if k = "message" then some lr.Body.AsString
          else if k = "severity" then some lr.SeverityText
          else none := by
  unfold convertLogToMap enabledAttribute
  simp only [foldl_projectLabel]
  rfl

/-- C6, as the claim states it, fails: with the label selection of the test
configuration, which enables `message`, on a record that has an attribute
named `message`, the value under `message` is not the body of the record. -/
theorem convertLogToMap_message_not_body :
    ¬ (convertLogToMap runningExporter shadowingRecord "severity"
          = some shadowingRecord.SeverityText
        ∧ convertLogToMap runningExporter shadowingRecord "message"
          = some shadowingRecord.Body.AsString) := by
  decide

/-- C6, amended. The map of `convertLogToMap` always has the keys `severity`
and `message`. The value under `severity` is the severity text and the value
under `message` is the body rendered as text, empty or not, unless the label
selection enables a label of that name and the record has an attribute of
that name: the value is then the string rendering of that attribute. -/
theorem convertLogToMap_severity_message (f : fluentforwardExporter) (lr : LogRecord) :
    convertLogToMap f lr "severity"
        = some (match enabledAttribute f lr "severity" with
                | some a => a.AsString
                | none => lr.SeverityText)
      ∧ convertLogToMap f lr "message"
        = some (match enabledAttribute f lr "message" with
                | some a => a.AsString
                | none => lr.Body.AsString) := by
  constructor
  · rw [convertLogToMap_apply]
    cases enabledAttribute f lr "severity" <;> simp
  · rw [convertLogToMap_apply]
    cases enabledAttribute f lr "message" <;> simp

/-- C7, as the claim states it, fails: `severity` is a label of the selection
whose flag is off and `message` is an enabled label whose attribute is absent
on the record, and both are keys of the map. -/
theorem convertLogToMap_keeps_fixed_keys :
    (("severity", false) ∈ overlappingExporter.config.DefaultLabelsEnabled.entries
        ∧ convertLogToMap overlappingExporter bareRecord "severity" ≠ none)
      ∧ (("message", true) ∈ overlappingExporter.config.DefaultLabelsEnabled.entries
        ∧ bareRecord.Attributes.Get "message" = none
        ∧ convertLogToMap overlappingExporter bareRecord "message" ≠ none) := by
  decide

/-- C7, amended. Apart from the two keys `severity` and `message`, which are
in every map, the map of `convertLogToMap` has no key that is a label of the
selection whose attribute is absent on the record, and no key that is a label
of the selection whose flag is off. -/
theorem convertLogToMap_omits_unselected (f : fluentforwardExporter) (lr : LogRecord)
    (k : String) (flag : Bool)
    (hlabel : (k, flag) ∈ f.config.DefaultLabelsEnabled.entries)
    (hsev : k ≠ "severity") (hmsg : k ≠ "message")
    (hout : lr.Attributes.Get k = none ∨ flag = false) :
    convertLogToMap f lr k = none := by
  rw [convertLogToMap_apply]
  have hnone : enabledAttribute f lr k = none := by
    unfold enabledAttribute
    rcases hout with hget | hflag
    · simp [hget]
    · subst hflag
      have hnot : (k, true) ∉ f.config.DefaultLabelsEnabled.entries := by
        intro htrue
        have hnodup := f.config.DefaultLabelsEnabled.nodup
        have := List.inj_on_of_nodup_map hnodup hlabel htrue rfl
        simp at this
      simp [hnot]
  simp [hnone, hsev, hmsg]

theorem convertLogToMap_omits_unselected_witness :
    convertLogToMap overlappingExporter plainRecord "host" = none :=
  convertLogToMap_omits_unselected overlappingExporter plainRecord "host" true
    (by decide) (by decide) (by decide) (Or.inl (by decide))

/-! ## The send / reconnect / send policy -/

/-- C2. For `SendForward` and `SendCompressed` on an exporter whose client is
set: when the first send fails, the reconnect succeeds and the second send
succeeds, the operation returns `nil` and its client calls are exactly send,
reconnect, send, in that order: two sends and one reconnect. -/
theorem send_recovers_after_reconnect (k : SendKind) (t : Transport) (hist : List Call)
    (f : fluentforwardExporter) (entries : List EntryExt) (e₁ : Error)
    (hclient : f.client ≠ none)
    (hfirst : t hist (k.call f.config.Tag entries) = some e₁)
    (hreconnect : t (hist ++ [k.call f.config.Tag entries]) Call.Reconnect = none)
    (hsecond : t (hist ++ [k.call f.config.Tag entries, Call.Reconnect])
      (k.call f.config.Tag entries) = none) :
    k.run t hist f entries
        = (Outcome.ret none,
            [k.call f.config.Tag entries, Call.Reconnect, k.call f.config.Tag entries])
      ∧ (k.run t hist f entries).2.countP Call.isSend = 2
      ∧ (k.run t hist f entries).2.countP Call.isReconnect = 1 := by
  have hrun : k.run t hist f entries
      = (Outcome.ret none,
          [k.call f.config.Tag entries, Call.Reconnect, k.call f.config.Tag entries]) := by
    cases hc : f.client with
    | none => exact absurd hc hclient
    | some c =>
      cases k <;>
        simp only [SendKind.call] at hfirst hreconnect hsecond <;>
        simp [SendKind.run, SendKind.call, SendForward, SendCompressed, hc, hfirst,
          hreconnect, hsecond]
  refine ⟨hrun, ?_, ?_⟩ <;> rw [hrun] <;> cases k <;> rfl

theorem send_recovers_after_reconnect_witness :
    SendKind.run SendKind.forward flakyTransport [] runningExporter []
        = (Outcome.ret none,
            [Call.SendForward "tag" [], Call.Reconnect, Call.SendForward "tag" []])
      ∧ SendKind.run SendKind.compressed flakyTransport [] runningGzipExporter []
        = (Outcome.ret none,
            [Call.SendCompressed "tag" [], Call.Reconnect, Call.SendCompressed "tag" []]) :=
  ⟨(send_recovers_after_reconnect SendKind.forward flakyTransport [] runningExporter []
      "broken pipe" (by decide) rfl rfl rfl).1,
   (send_recovers_after_reconnect SendKind.compressed flakyTransport [] runningGzipExporter []
      "broken pipe" (by decide) rfl rfl rfl).1⟩

/-- C3. For `SendForward` and `SendCompressed` on an exporter whose client is
set: when the first send fails and the reconnect fails, the operation returns
the error of the reconnect, whatever the error of the send was, and its client
calls are exactly one send followed by one reconnect: no second send. -/
theorem send_returns_reconnect_error (k : SendKind) (t : Transport) (hist : List Call)
    (f : fluentforwardExporter) (entries : List EntryExt) (e₁ e₂ : Error)
    (hclient : f.client ≠ none)
    (hfirst : t hist (k.call f.config.Tag entries) = some e₁)
    (hreconnect : t (hist ++ [k.call f.config.Tag entries]) Call.Reconnect = some e₂) :
    k.run t hist f entries
        = (Outcome.ret (some e₂), [k.call f.config.Tag entries, Call.Reconnect])
      ∧ (k.run t hist f entries).2.countP Call.isSend = 1
      ∧ (k.run t hist f entries).2.countP Call.isReconnect = 1 := by
  have hrun : k.run t hist f entries
      = (Outcome.ret (some e₂), [k.call f.config.Tag entries, Call.Reconnect]) := by
    cases hc : f.client with
    | none => exact absurd hc hclient
    | some c =>
      cases k <;>
        simp only [SendKind.call] at hfirst hreconnect <;>
        simp [SendKind.run, SendKind.call, SendForward, SendCompressed, hc, hfirst,
          hreconnect]
  refine ⟨hrun, ?_, ?_⟩ <;> rw [hrun] <;> cases k <;> rfl

theorem send_returns_reconnect_error_witness :
    SendKind.run SendKind.forward deadTransport [] runningExporter []
        = (Outcome.ret (some "connection refused"),
            [Call.SendForward "tag" [], Call.Reconnect])
      ∧ SendKind.run SendKind.compressed deadTransport [] runningGzipExporter []
        = (Outcome.ret (some "connection refused"),
            [Call.SendCompressed "tag" [], Call.Reconnect]) :=
  ⟨(send_returns_reconnect_error SendKind.forward deadTransport [] runningExporter []
      "broken pipe" "connection refused" (by decide) rfl rfl).1,
   (send_returns_reconnect_error SendKind.compressed deadTransport [] runningGzipExporter []
      "broken pipe" "connection refused" (by decide) rfl rfl).1⟩

/-- C4. For `SendForward` and `SendCompressed` on an exporter whose client is
set: when the first send fails and the reconnect succeeds, the operation
returns what the second send returns, `nil` or an error; when both sends fail
the error returned is the one of the second send. -/
theorem send_returns_second_attempt (k : SendKind) (t : Transport) (hist : List Call)
    (f : fluentforwardExporter) (entries : List EntryExt) (e₁ : Error)
    (hclient : f.client ≠ none)
    (hfirst : t hist (k.call f.config.Tag entries) = some e₁)
    (hreconnect : t (hist ++ [k.call f.config.Tag entries]) Call.Reconnect = none) :
    (k.run t hist f entries).1
        = Outcome.ret (t (hist ++ [k.call f.config.Tag entries, Call.Reconnect])
            (k.call f.config.Tag entries))
      ∧ ∀ e₂ : Error,
          t (hist ++ [k.call f.config.Tag entries, Call.Reconnect])
              (k.call f.config.Tag entries) = some e₂ →
          (k.run t hist f entries).1 = Outcome.ret (some e₂) := by
  have hrun : (k.run t hist f entries).1
      = Outcome.ret (t (hist ++ [k.call f.config.Tag entries, Call.Reconnect])
          (k.call f.config.Tag entries)) := by
    cases hc : f.client with
    | none => exact absurd hc hclient
    | some c =>
      cases k <;>
        simp only [SendKind.call] at hfirst hreconnect <;>
        simp only [SendKind.run, SendKind.call, SendForward, SendCompressed, hc, hfirst,
          hreconnect] <;>
        split <;> simp [*]
  exact ⟨hrun, fun e₂ h => by rw [hrun, h]⟩

theorem send_returns_second_attempt_witness :
    (SendKind.run SendKind.forward deafTransport [] runningExporter []).1
        = Outcome.ret (some "connection reset")
      ∧ (SendKind.run SendKind.compressed deafTransport [] runningGzipExporter []).1
        = Outcome.ret (some "connection reset") :=
  ⟨(send_returns_second_attempt SendKind.forward deafTransport [] runningExporter []
      "broken pipe" (by decide) rfl rfl).2 "connection reset" rfl,
   (send_returns_second_attempt SendKind.compressed deafTransport [] runningGzipExporter []
      "broken pipe" (by decide) rfl rfl).2 "connection reset" rfl⟩

/-- The client calls of `SendForward` are one of four sequences. -/
theorem SendForward_calls (t : Transport) (hist : List Call) (f : fluentforwardExporter)
    (entries : List EntryExt) :
    (SendForward t hist f entries).2 = []
      ∨ (SendForward t hist f entries).2 = [Call.SendForward f.config.Tag entries]
      ∨ (SendForward t hist f entries).2
          = [Call.SendForward f.config.Tag entries, Call.Reconnect]
      ∨ (SendForward t hist f entries).2
          = [Call.SendForward f.config.Tag entries, Call.Reconnect,
              Call.SendForward f.config.Tag entries] := by
  unfold SendForward
  cases hc : f.client with
  | none => simp
  | some c =>
    cases h₁ : t hist (Call.SendForward f.config.Tag entries) with
    | none => simp [h₁]
    | some e₁ =>
      cases h₂ : t (hist ++ [Call.SendForward f.config.Tag entries]) Call.Reconnect with
      | some e₂ => simp [h₁, h₂]
      | none =>
        cases h₃ : t (hist ++ [Call.SendForward f.config.Tag entries, Call.Reconnect])
            (Call.SendForward f.config.Tag entries) with
        | none => simp [h₁, h₂, h₃]
        | some e₃ => simp [h₁, h₂, h₃]

/-- The client calls of `SendCompressed` are one of four sequences. -/
theorem SendCompressed_calls (t : Transport) (hist : List Call) (f : fluentforwardExporter)
    (entries : List EntryExt) :
    (SendCompressed t hist f entries).2 = []
      ∨ (SendCompressed t hist f entries).2 = [Call.SendCompressed f.config.Tag entries]
      ∨ (SendCompressed t hist f entries).2
          = [Call.SendCompressed f.config.Tag entries, Call.Reconnect]
      ∨ (SendCompressed t hist f entries).2
          = [Call.SendCompressed f.config.Tag entries, Call.Reconnect,
              Call.SendCompressed f.config.Tag entries] := by
  unfold SendCompressed
  cases hc : f.client with
  | none => simp
  | some c =>
    cases h₁ : t hist (Call.SendCompressed f.config.Tag entries) with
    | none => simp [h₁]
    | some e₁ =>
      cases h₂ : t (hist ++ [Call.SendCompressed f.config.Tag entries]) Call.Reconnect with
      | some e₂ => simp [h₁, h₂]
      | none =>
        cases h₃ : t (hist ++ [Call.SendCompressed f.config.Tag entries, Call.Reconnect])
            (Call.SendCompressed f.config.Tag entries) with
        | none => simp [h₁, h₂, h₃]
        | some e₃ => simp [h₁, h₂, h₃]

/-- C5. Whatever the transport answers and whatever the batch, the client
calls of one `pushLogData` hold at most two sends, at most one reconnect and
no connect. -/
theorem pushLogData_call_bounds (t : Transport) (hist : List Call)
    (f : fluentforwardExporter) (clock : Nat → EventTime) (ld : Logs) :
    (pushLogData t hist f clock ld).2.countP Call.isSend ≤ 2
      ∧ (pushLogData t hist f clock ld).2.countP Call.isReconnect ≤ 1
      ∧ (pushLogData t hist f clock ld).2.countP Call.isConnect = 0 := by
  unfold pushLogData
  split
  · rcases SendCompressed_calls t hist f (assembleEntries f clock ld) with h | h | h | h <;>
      rw [h] <;> simp [List.countP_cons, Call.isSend, Call.isReconnect, Call.isConnect]
  · rcases SendForward_calls t hist f (assembleEntries f clock ld) with h | h | h | h <;>
      rw [h] <;> simp [List.countP_cons, Call.isSend, Call.isReconnect, Call.isConnect]

/-- With the client set, `SendForward` begins with an uncompressed send and
makes no compressed send. -/
theorem SendForward_calls_of_client (t : Transport) (hist : List Call)
    (f : fluentforwardExporter) (entries : List EntryExt) (hclient : f.client ≠ none) :
    (∃ c ∈ (SendForward t hist f entries).2, c.isSendForward = true)
      ∧ ∀ c ∈ (SendForward t hist f entries).2, c.isSendCompressed = false := by
  have hne : (SendForward t hist f entries).2 ≠ [] := by
    unfold SendForward
    cases hc : f.client with
    | none => exact absurd hc hclient
    | some c =>
      simp only
      repeat' split
      all_goals simp
  rcases SendForward_calls t hist f entries with h | h | h | h
  · exact absurd h hne
  all_goals
    rw [h]
    simp [Call.isSendForward, Call.isSendCompressed]

/-- With the client set, `SendCompressed` begins with a compressed send and
makes no uncompressed send. -/
theorem SendCompressed_calls_of_client (t : Transport) (hist : List Call)
    (f : fluentforwardExporter) (entries : List EntryExt) (hclient : f.client ≠ none) :
    (∃ c ∈ (SendCompressed t hist f entries).2, c.isSendCompressed = true)
      ∧ ∀ c ∈ (SendCompressed t hist f entries).2, c.isSendForward = false := by
  have hne : (SendCompressed t hist f entries).2 ≠ [] := by
    unfold SendCompressed
    cases hc : f.client with
    | none => exact absurd hc hclient
    | some c =>
      simp only
      repeat' split
      all_goals simp
  rcases SendCompressed_calls t hist f entries with h | h | h | h
  · exact absurd h hne
  all_goals
    rw [h]
    simp [Call.isSendForward, Call.isSendCompressed]

/-- C8. On an exporter whose client is set, for every batch and every
transport: `pushLogData` makes a compressed send exactly when the gzip flag of
the configuration is on, and an uncompressed send exactly when it is off; its
result is the result of `SendCompressed`, respectively `SendForward`, on the
assembled entries. -/
theorem pushLogData_routes_by_gzip (t : Transport) (hist : List Call)
    (f : fluentforwardExporter) (clock : Nat → EventTime) (ld : Logs)
    (hclient : f.client ≠ none) :
    ((∃ c ∈ (pushLogData t hist f clock ld).2, c.isSendCompressed = true)
        ↔ f.config.CompressGzip = true)
      ∧ ((∃ c ∈ (pushLogData t hist f clock ld).2, c.isSendForward = true)
        ↔ f.config.CompressGzip = false)
      ∧ (f.config.CompressGzip = true →
          pushLogData t hist f clock ld
            = SendCompressed t hist f (assembleEntries f clock ld))
      ∧ (f.config.CompressGzip = false →
          pushLogData t hist f clock ld
            = SendForward t hist f (assembleEntries f clock ld)) := by
  have hF := SendForward_calls_of_client t hist f (assembleEntries f clock ld) hclient
  have hC := SendCompressed_calls_of_client t hist f (assembleEntries f clock ld) hclient
  cases hz : f.config.CompressGzip with
  | true =>
    have hpush : pushLogData t hist f clock ld
        = SendCompressed t hist f (assembleEntries f clock ld) := by
      simp [pushLogData, hz]
    rw [hpush]
    refine ⟨⟨fun _ => rfl, fun _ => hC.1⟩, ⟨?_, fun h => by cases h⟩, fun _ => rfl,
      fun h => by cases h⟩
    rintro ⟨c, hmem, hc⟩
    rw [hC.2 c hmem] at hc
    cases hc
  | false =>
    have hpush : pushLogData t hist f clock ld
        = SendForward t hist f (assembleEntries f clock ld) := by
      simp [pushLogData, hz]
    rw [hpush]
    refine ⟨⟨?_, fun h => by cases h⟩, ⟨fun _ => rfl, fun _ => hF.1⟩,
      fun h => (by cases h), fun _ => rfl⟩
    rintro ⟨c, hmem, hc⟩
    rw [hF.2 c hmem] at hc
    cases hc

theorem pushLogData_routes_by_gzip_witness :
    pushLogData flakyTransport [] runningGzipExporter id sampleBatch
        = SendCompressed flakyTransport [] runningGzipExporter
            (assembleEntries runningGzipExporter id sampleBatch)
      ∧ pushLogData flakyTransport [] runningExporter id sampleBatch
        = SendForward flakyTransport [] runningExporter
            (assembleEntries runningExporter id sampleBatch) :=
  ⟨(pushLogData_routes_by_gzip flakyTransport [] runningGzipExporter id sampleBatch
      (by decide)).2.2.1 rfl,
   (pushLogData_routes_by_gzip flakyTransport [] runningExporter id sampleBatch
      (by decide)).2.2.2 rfl⟩

/-! ## Lifecycle -/

/-- C9. `start` returns an error exactly when the connect of the client fails.
The error is then the error of the connect and the exporter is unchanged: a
client reference that was unset stays unset. When the connect succeeds `start`
returns `nil` and the client reference is the client built from the endpoint,
the connection timeout and the acknowledgement flag of the configuration, the
other fields being unchanged. `start` makes that one connect call. -/
theorem start_fails_iff_connect_fails (t : Transport) (hist : List Call)
    (f : fluentforwardExporter) :
    ((start t hist f).1 ≠ none ↔ t hist (Call.Connect (clientOf f.config)) ≠ none)
      ∧ (∀ e : Error, t hist (Call.Connect (clientOf f.config)) = some e →
          (start t hist f).1 = some e ∧ (start t hist f).2.1 = f
            ∧ (f.client = none → (start t hist f).2.1.client = none))
      ∧ (t hist (Call.Connect (clientOf f.config)) = none →
          (start t hist f).1 = none
            ∧ (start t hist f).2.1 = { f with client := some (clientOf f.config) })
      ∧ (start t hist f).2.2 = [Call.Connect (clientOf f.config)] := by
  unfold start clientOf
  cases h : t hist (Call.Connect (Client.New
      { Address := f.config.Endpoint
        Timeout := f.config.ConnectionTimeout
        RequireAck := f.config.RequireAck })) with
  | none => simp [h]
  | some e => simp [h]

theorem start_fails_iff_connect_fails_witness :
    (start deadTransport [] (newExporter testConfig {})).1 = some "connection refused"
      ∧ (start deadTransport [] (newExporter testConfig {})).2.1.client = none
      ∧ (start healthyTransport [] (newExporter testConfig {})).1 = none
      ∧ (start healthyTransport [] (newExporter testConfig {})).2.1.client
          = some (clientOf testConfig) :=
  ⟨((start_fails_iff_connect_fails deadTransport [] (newExporter testConfig {})).2.1
      "connection refused" rfl).1,
   ((start_fails_iff_connect_fails deadTransport [] (newExporter testConfig {})).2.1
      "connection refused" rfl).2.2 rfl,
   ((start_fails_iff_connect_fails healthyTransport [] (newExporter testConfig {})).2.2.1
      rfl).1,
   congrArg fluentforwardExporter.client
    ((start_fails_iff_connect_fails healthyTransport [] (newExporter testConfig {})).2.2.1
      rfl).2⟩

/-- The method `start` leaves the counter of the wait group as it is. -/
theorem start_wg (t : Transport) (hist : List Call) (f : fluentforwardExporter) :
    (start t hist f).2.1.wg = f.wg := by
  unfold start
  cases h : t hist (Call.Connect (Client.New
      { Address := f.config.Endpoint
        Timeout := f.config.ConnectionTimeout
        RequireAck := f.config.RequireAck })) with
  | none => simp [h]
  | some e => simp [h]

/-- C10. On the exporter that a successful `start` of a new exporter leaves,
`stop` returns, and returns `nil`; and in whatever state `stop` returns, it
returns `nil`. -/
theorem stop_returns_nil (t : Transport) (hist : List Call) (config : Config)
    (settings : TelemetrySettings) (f : fluentforwardExporter) (calls : List Call)
    (hstart : start t hist (newExporter config settings) = (none, f, calls)) :
    stop f = some none
      ∧ ∀ (g : fluentforwardExporter) (r : Option Error), stop g = some r → r = none := by
  constructor
  · have hwg : f.wg = 0 := by
      have h := start_wg t hist (newExporter config settings)
      rw [hstart] at h
      exact h
    simp [stop, hwg]
  · intro g r hr
    unfold stop at hr
    split at hr
    · simpa using hr.symm
    · simp at hr

theorem stop_returns_nil_witness :
    stop (start healthyTransport [] (newExporter testConfig {})).2.1 = some none :=
  (stop_returns_nil healthyTransport [] testConfig {}
    (start healthyTransport [] (newExporter testConfig {})).2.1
    (start healthyTransport [] (newExporter testConfig {})).2.2 rfl).1

/-- C11, what the code does. Entering and leaving `pushLogData` leave the
counter of the wait group as it is, so on the instance that a successful
`start` leaves, with one push entered and not yet returned, the counter is
zero and `stop` returns. -/
theorem stop_returns_during_push :
    (∀ i : Instance, i.enterPush.exporter.wg = i.exporter.wg
        ∧ i.leavePush.exporter.wg = i.exporter.wg)
      ∧ startedInstance.enterPush.inFlight = 1
      ∧ startedInstance.enterPush.exporter.wg = 0
      ∧ stop startedInstance.enterPush.exporter = some none :=
  ⟨fun _ => ⟨rfl, rfl⟩, rfl, rfl, rfl⟩

/-! ## The send / reconnect / send policy, continued -/

/-- C12. For `SendForward` and `SendCompressed` on an exporter whose client is
set: the operation makes a reconnect call exactly when its first send fails;
when the first send succeeds it returns `nil` and its client calls are that
one send: one send and no reconnect. -/
theorem send_reconnects_iff_first_fails (k : SendKind) (t : Transport) (hist : List Call)
    (f : fluentforwardExporter) (entries : List EntryExt) (hclient : f.client ≠ none) :
    ((∃ c ∈ (k.run t hist f entries).2, c.isReconnect = true)
        ↔ t hist (k.call f.config.Tag entries) ≠ none)
      ∧ (t hist (k.call f.config.Tag entries) = none →
          k.run t hist f entries = (Outcome.ret none, [k.call f.config.Tag entries])
            ∧ (k.run t hist f entries).2.countP Call.isSend = 1
            ∧ (k.run t hist f entries).2.countP Call.isReconnect = 0) := by
  cases hc : f.client with
  | none => exact absurd hc hclient
  | some c =>
    cases k with
    | forward =>
      simp only [SendKind.run, SendKind.call, SendForward, hc]
      cases h₁ : t hist (Call.SendForward f.config.Tag entries) with
      | none => simp [Call.isReconnect, Call.isSend]
      | some e₁ =>
        cases h₂ : t (hist ++ [Call.SendForward f.config.Tag entries]) Call.Reconnect with
        | some e₂ => simp [Call.isReconnect]
        | none =>
          cases h₃ : t (hist ++ [Call.SendForward f.config.Tag entries, Call.Reconnect])
              (Call.SendForward f.config.Tag entries) <;> simp [Call.isReconnect]
    | compressed =>
      simp only [SendKind.run, SendKind.call, SendCompressed, hc]
      cases h₁ : t hist (Call.SendCompressed f.config.Tag entries) with
      | none => simp [Call.isReconnect, Call.isSend]
      | some e₁ =>
        cases h₂ : t (hist ++ [Call.SendCompressed f.config.Tag entries]) Call.Reconnect with
        | some e₂ => simp [Call.isReconnect]
        | none =>
          cases h₃ : t (hist ++ [Call.SendCompressed f.config.Tag entries, Call.Reconnect])
              (Call.SendCompressed f.config.Tag entries) <;> simp [Call.isReconnect]

theorem send_reconnects_iff_first_fails_witness :
    SendKind.run SendKind.forward healthyTransport [] runningExporter []
        = (Outcome.ret none, [Call.SendForward "tag" []])
      ∧ SendKind.run SendKind.compressed healthyTransport [] runningGzipExporter []
        = (Outcome.ret none, [Call.SendCompressed "tag" []])
      ∧ ∃ c ∈ (SendKind.run SendKind.forward deadTransport [] runningExporter []).2,
          c.isReconnect = true :=
  ⟨((send_reconnects_iff_first_fails SendKind.forward healthyTransport [] runningExporter []
      (by decide)).2 rfl).1,
   ((send_reconnects_iff_first_fails SendKind.compressed healthyTransport []
      runningGzipExporter [] (by decide)).2 rfl).1,
   (send_reconnects_iff_first_fails SendKind.forward deadTransport [] runningExporter []
      (by decide)).1.2 (by decide)⟩

/-- C13. `SendCompressed` on one transport and `SendForward` on another, on the
same exporter and entries: when the two transports give the same answers to
the corresponding calls (first send, reconnect, second send), the two
operations end the same way and the calls of `SendCompressed`, with each
compressed send replaced by the uncompressed send, are the calls of
`SendForward`. -/
theorem send_compressed_mirrors_forward (tc tf : Transport) (histc histf : List Call)
    (f : fluentforwardExporter) (entries : List EntryExt)
    (hfirst : tc histc (Call.SendCompressed f.config.Tag entries)
      = tf histf (Call.SendForward f.config.Tag entries))
    (hreconnect : tc (histc ++ [Call.SendCompressed f.config.Tag entries]) Call.Reconnect
      = tf (histf ++ [Call.SendForward f.config.Tag entries]) Call.Reconnect)
    (hsecond : tc (histc ++ [Call.SendCompressed f.config.Tag entries, Call.Reconnect])
        (Call.SendCompressed f.config.Tag entries)
      = tf (histf ++ [Call.SendForward f.config.Tag entries, Call.Reconnect])
        (Call.SendForward f.config.Tag entries)) :
    (SendCompressed tc histc f entries).1 = (SendForward tf histf f entries).1
      ∧ (SendCompressed tc histc f entries).2.map Call.uncompress
        = (SendForward tf histf f entries).2 := by
  unfold SendCompressed SendForward
  cases hc : f.client with
  | none => simp
  | some c =>
    simp only [hfirst, hreconnect, hsecond]
    cases h₁ : tf histf (Call.SendForward f.config.Tag entries) with
    | none => simp [Call.uncompress]
    | some e₁ =>
      cases h₂ : tf (histf ++ [Call.SendForward f.config.Tag entries]) Call.Reconnect with
      | some e₂ => simp [Call.uncompress]
      | none =>
        cases h₃ : tf (histf ++ [Call.SendForward f.config.Tag entries, Call.Reconnect])
            (Call.SendForward f.config.Tag entries) <;> simp [Call.uncompress]

theorem send_compressed_mirrors_forward_witness :
    (SendCompressed deafTransport [] runningExporter []).1
        = (SendForward deafTransport [] runningExporter []).1
      ∧ (SendCompressed deafTransport [] runningExporter []).2.map Call.uncompress
        = (SendForward deafTransport [] runningExporter []).2 :=
  send_compressed_mirrors_forward deafTransport deafTransport [] [] runningExporter []
    rfl rfl rfl

/-! ## Timestamps -/

/-- The timestamps of the entries appended for a list of records are the
consecutive clock readings that follow the readings taken before. -/
theorem stampFrom_timestamp (f : fluentforwardExporter) (clock : Nat → EventTime)
    (xs : List LogRecord) (n : Nat) :
    (stampFrom f clock n xs).map EntryExt.Timestamp = (List.range' n xs.length).map clock := by
  induction xs generalizing n with
  | nil => rfl
  | cons x xs ih => simp [stampFrom, List.range', ih]

/-- C14. The timestamps of the assembled entries are the clock readings
`clock 0`, `clock 1`, ... in order, one per leaf record: the timestamp of the
`i`-th entry is the `i`-th reading. Two batches with the same number of leaf
records, assembled under the same clock, have the same timestamps, whatever
their records and whatever the exporter. -/
theorem timestamps_are_clock_readings (f g : fluentforwardExporter)
    (clock : Nat → EventTime) (ld ld₂ : Logs) (hcount : leafCount ld = leafCount ld₂) :
    (assembleEntries f clock ld).map EntryExt.Timestamp
        = (List.range (leafCount ld)).map clock
      ∧ (∀ i : Nat, i < leafCount ld →
          ((assembleEntries f clock ld)[i]?).map EntryExt.Timestamp = some (clock i))
      ∧ (assembleEntries f clock ld).map EntryExt.Timestamp
        = (assembleEntries g clock ld₂).map EntryExt.Timestamp := by
  have hstamp : ∀ (e : fluentforwardExporter) (b : Logs),
      (assembleEntries e clock b).map EntryExt.Timestamp
        = (List.range (leafCount b)).map clock := by
    intro e b
    rw [assembleEntries_eq, stampFrom_timestamp, leafRecords_length, List.range_eq_range']
  refine ⟨hstamp f ld, ?_, ?_⟩
  · intro i hi
    rw [← List.getElem?_map, hstamp f ld, List.getElem?_map, List.getElem?_range hi]
    rfl
  · rw [hstamp f ld, hstamp g ld₂, hcount]

theorem timestamps_are_clock_readings_witness :
    (assembleEntries runningExporter (fun n => 100 + n) sampleBatch).map EntryExt.Timestamp
        = [100, 101, 102]
      ∧ (assembleEntries runningExporter (fun n => 100 + n) sampleBatch).map EntryExt.Timestamp
        = (assembleEntries overlappingExporter (fun n => 100 + n) otherBatch).map
            EntryExt.Timestamp :=
  ⟨(timestamps_are_clock_readings runningExporter overlappingExporter (fun n => 100 + n)
      sampleBatch otherBatch (by decide)).1,
   (timestamps_are_clock_readings runningExporter overlappingExporter (fun n => 100 + n)
      sampleBatch otherBatch (by decide)).2.2⟩

/-! ## Record translation, continued -/

/-- The loop of `convertLogToMap` is the application, in order, of the
assignments of the enabled labels whose attribute is present. -/
theorem foldl_projectLabel_eq (lr : LogRecord) (entries : List (String × Bool)) (m : GoMap) :
    entries.foldl (projectLabel lr) m
      = (entries.filterMap fun kv =>
          if kv.2 then (lr.Attributes.Get kv.1).map fun a => (kv.1, a.AsString)
          else none).foldl (fun m p => m.set p.1 p.2) m := by
  induction entries generalizing m with
  | nil => rfl
  | cons kv rest ih =>
    obtain ⟨key, val⟩ := kv
    rw [List.foldl_cons, ih]
    cases val with
    | false => simp [projectLabel]
    | true =>
      cases hget : lr.Attributes.Get key with
      | none => simp [projectLabel, hget]
      | some a => simp [projectLabel, hget]

/-- C15. `convertLogToMap` returns the map obtained by setting `severity` to
the severity text and `message` to the body text and then setting, for each
label whose flag is true and whose attribute is present, the key of the label
to the string rendering of the attribute. Its keys are `severity`, `message`
and the enabled labels whose attribute is present; under the key of such a
label, `severity` and `message` included, the value is the rendering of the
attribute. -/
theorem convertLogToMap_eq_translatedMap (f : fluentforwardExporter) (lr : LogRecord) :
    convertLogToMap f lr = translatedMap f lr
      ∧ (∀ k : String, convertLogToMap f lr k ≠ none ↔
          (k = "severity" ∨ k = "message"
            ∨ ((k, true) ∈ f.config.DefaultLabelsEnabled.entries
                ∧ lr.Attributes.Get k ≠ none)))
      ∧ (∀ (k : String) (a : Value), (k, true) ∈ f.config.DefaultLabelsEnabled.entries →
          lr.Attributes.Get k = some a → convertLogToMap f lr k = some a.AsString) := by
  refine ⟨?_, ?_, ?_⟩
  · unfold convertLogToMap translatedMap labelAssignments
    exact foldl_projectLabel_eq lr _ _
  · intro k
    rw [convertLogToMap_apply]
    cases hattr : enabledAttribute f lr k with
    | some a =>
      have hlabel : (k, true) ∈ f.config.DefaultLabelsEnabled.entries
          ∧ lr.Attributes.Get k ≠ none := by
        unfold enabledAttribute at hattr
        split at hattr
        · rename_i hmem
          exact ⟨hmem, by simp [hattr]⟩
        · cases hattr
      exact ⟨fun _ => Or.inr (Or.inr hlabel), fun _ => by simp⟩
    | none =>
      have hlabel : ¬ ((k, true) ∈ f.config.DefaultLabelsEnabled.entries
          ∧ lr.Attributes.Get k ≠ none) := by
        rintro ⟨hmem, hget⟩
        unfold enabledAttribute at hattr
        rw [if_pos hmem] at hattr
        exact hget hattr
      show (if k = "message" then some lr.Body.AsString
        else if k = "severity" then some lr.SeverityText else none) ≠ none ↔ _
      by_cases hm : k = "message"
      · rw [if_pos hm]
        exact ⟨fun _ => Or.inr (Or.inl hm), fun _ => by simp⟩
      · rw [if_neg hm]
        by_cases hs : k = "severity"
        · rw [if_pos hs]
          exact ⟨fun _ => Or.inl hs, fun _ => by simp⟩
        · rw [if_neg hs]
          refine ⟨fun h => absurd rfl h, fun h => ?_⟩
          rcases h with h | h | h
          · exact absurd h hs
          · exact absurd h hm
          · exact absurd h hlabel
  · intro k a hmem hget
    rw [convertLogToMap_apply]
    simp [enabledAttribute, hmem, hget]

/-! ## Arguments of the sends and batches without records -/

/-- C16. Every send call that `SendForward` or `SendCompressed` makes, the
first and the second, is the send of that kind with the tag of the
configuration and the entry sequence the operation was given. -/
theorem send_attempts_carry_same_arguments (k : SendKind) (t : Transport)
    (hist : List Call) (f : fluentforwardExporter) (entries : List EntryExt) :
    ∀ c ∈ (k.run t hist f entries).2, c.isSend = true → c = k.call f.config.Tag entries := by
  intro c hmem hsend
  cases k with
  | forward =>
    simp only [SendKind.run, SendKind.call] at hmem ⊢
    rcases SendForward_calls t hist f entries with h | h | h | h
    · rw [h] at hmem
      cases hmem
    · rw [h] at hmem
      simpa using hmem
    · rw [h] at hmem
      simp only [List.mem_cons, List.mem_singleton, List.not_mem_nil, or_false] at hmem
      rcases hmem with rfl | rfl
      · rfl
      · simp [Call.isSend] at hsend
    · rw [h] at hmem
      simp only [List.mem_cons, List.mem_singleton, List.not_mem_nil, or_false] at hmem
      rcases hmem with rfl | rfl | rfl
      · rfl
      · simp [Call.isSend] at hsend
      · rfl
  | compressed =>
    simp only [SendKind.run, SendKind.call] at hmem ⊢
    rcases SendCompressed_calls t hist f entries with h | h | h | h
    · rw [h] at hmem
      cases hmem
    · rw [h] at hmem
      simpa using hmem
    · rw [h] at hmem
      simp only [List.mem_cons, List.mem_singleton, List.not_mem_nil, or_false] at hmem
      rcases hmem with rfl | rfl
      · rfl
      · simp [Call.isSend] at hsend
    · rw [h] at hmem
      simp only [List.mem_cons, List.mem_singleton, List.not_mem_nil, or_false] at hmem
      rcases hmem with rfl | rfl | rfl
      · rfl
      · simp [Call.isSend] at hsend
      · rfl

theorem send_attempts_carry_same_arguments_witness :
    Call.SendCompressed "tag" (assembleEntries runningGzipExporter id sampleBatch)
        ∈ (SendKind.run SendKind.compressed flakyTransport [] runningGzipExporter
            (assembleEntries runningGzipExporter id sampleBatch)).2
      ∧ Call.SendCompressed "tag" (assembleEntries runningGzipExporter id sampleBatch)
        = SendKind.call SendKind.compressed runningGzipExporter.config.Tag
            (assembleEntries runningGzipExporter id sampleBatch) :=
  have hmem : Call.SendCompressed "tag" (assembleEntries runningGzipExporter id sampleBatch)
      ∈ (SendKind.run SendKind.compressed flakyTransport [] runningGzipExporter
          (assembleEntries runningGzipExporter id sampleBatch)).2 :=
    show _ ∈ [Call.SendCompressed "tag" (assembleEntries runningGzipExporter id sampleBatch),
      Call.Reconnect,
      Call.SendCompressed "tag" (assembleEntries runningGzipExporter id sampleBatch)] from
      List.mem_cons_self _ _
  ⟨hmem,
   send_attempts_carry_same_arguments SendKind.compressed flakyTransport []
    runningGzipExporter (assembleEntries runningGzipExporter id sampleBatch) _ hmem rfl⟩

/-- With the client set, the first client call of `SendForward` is the
uncompressed send of the entries. -/
theorem SendForward_head (t : Transport) (hist : List Call) (f : fluentforwardExporter)
    (entries : List EntryExt) (hclient : f.client ≠ none) :
    (SendForward t hist f entries).2.head? = some (Call.SendForward f.config.Tag entries) := by
  unfold SendForward
  cases hc : f.client with
  | none => exact absurd hc hclient
  | some c =>
    cases h₁ : t hist (Call.SendForward f.config.Tag entries) with
    | none => simp [h₁]
    | some e₁ =>
      cases h₂ : t (hist ++ [Call.SendForward f.config.Tag entries]) Call.Reconnect with
      | some e₂ => simp [h₁, h₂]
      | none =>
        cases h₃ : t (hist ++ [Call.SendForward f.config.Tag entries, Call.Reconnect])
            (Call.SendForward f.config.Tag entries) <;> simp [h₁, h₂, h₃]

/-- With the client set, the first client call of `SendCompressed` is the
compressed send of the entries. -/
theorem SendCompressed_head (t : Transport) (hist : List Call) (f : fluentforwardExporter)
    (entries : List EntryExt) (hclient : f.client ≠ none) :
    (SendCompressed t hist f entries).2.head?
      = some (Call.SendCompressed f.config.Tag entries) := by
  unfold SendCompressed
  cases hc : f.client with
  | none => exact absurd hc hclient
  | some c =>
    cases h₁ : t hist (Call.SendCompressed f.config.Tag entries) with
    | none => simp [h₁]
    | some e₁ =>
      cases h₂ : t (hist ++ [Call.SendCompressed f.config.Tag entries]) Call.Reconnect with
      | some e₂ => simp [h₁, h₂]
      | none =>
        cases h₃ : t (hist ++ [Call.SendCompressed f.config.Tag entries, Call.Reconnect])
            (Call.SendCompressed f.config.Tag entries) <;> simp [h₁, h₂, h₃]

/-- C17. On an exporter whose client is set, for a batch without leaf log
record: the assembled entry sequence is empty, `pushLogData` returns what
`SendCompressed`, respectively `SendForward`, returns on the empty sequence,
and its first client call is that send with no entries: the transport is
contacted. -/
theorem pushLogData_sends_empty_batch (t : Transport) (hist : List Call)
    (f : fluentforwardExporter) (clock : Nat → EventTime) (ld : Logs)
    (hclient : f.client ≠ none) (hleaf : leafCount ld = 0) :
    assembleEntries f clock ld = []
      ∧ pushLogData t hist f clock ld
        = (if f.config.CompressGzip then SendCompressed t hist f []
           else SendForward t hist f [])
      ∧ (pushLogData t hist f clock ld).2.head?
        = some (if f.config.CompressGzip then Call.SendCompressed f.config.Tag []
                else Call.SendForward f.config.Tag []) := by
  have hempty : assembleEntries f clock ld = [] := by
    have hlen : (leafRecords ld).length = 0 := by rw [leafRecords_length, hleaf]
    rw [assembleEntries_eq, List.length_eq_zero.mp hlen]
    rfl
  refine ⟨hempty, ?_, ?_⟩
  · simp only [pushLogData, hempty]
  · simp only [pushLogData, hempty]
    cases hz : f.config.CompressGzip with
    | true => simpa using SendCompressed_head t hist f [] hclient
    | false => simpa using SendForward_head t hist f [] hclient

theorem pushLogData_sends_empty_batch_witness :
    pushLogData deadTransport [] runningGzipExporter id hollowBatch
        = (Outcome.ret (some "connection refused"),
            [Call.SendCompressed "tag" [], Call.Reconnect])
      ∧ (pushLogData healthyTransport [] runningExporter id hollowBatch).2.head?
        = some (Call.SendForward "tag" []) :=
  ⟨(pushLogData_sends_empty_batch deadTransport [] runningGzipExporter id hollowBatch
      (by decide) (by decide)).2.1,
   (pushLogData_sends_empty_batch healthyTransport [] runningExporter id hollowBatch
      (by decide) (by decide)).2.2⟩

end fluentforwardexporter
